import Mathlib

/-!
Shallow embedding of the execution core of `piccolo` (files
`src/thread/thread.rs` and `src/stash.rs`), together with proofs about the
thread state machine, the executor step loop, upvalue handling and the stash
boundary.

Representation conventions, used consistently below:

* `Vec<Value>` value stacks and the `open_upvalues` vector are `List`s in
  natural order: list position `i` is Rust index `i` (`stack[i]`).
* The `frames` vector of a thread and the executor's `thread_stack` are
  `List`s with the TOP of the stack (= the *last* element of the Rust `Vec`)
  at the HEAD of the list, so `Vec::push` is `cons` and `Vec::pop` takes the
  head.
* GC handles (`Gc` pointers to strings, tables, closures, callbacks, threads,
  userdata, upvalue cells) are opaque identifiers of type `Nat`; handle
  equality (`Gc::ptr_eq`) is `Nat` equality.
* `f64` values are carried as their raw bit pattern (a `Nat`); the core never
  computes with them, it only moves them around, so this is exact.
* Rust panics (`panic!`, failed `assert!`, `unwrap`, out-of-bounds indexing)
  are modelled by returning `none` from an `Option`-valued function.
* A `RefLock` borrow that can fail re-entrantly is modelled by an explicit
  `borrowed : Bool` flag where the code can observe the failure
  (`Thread::mode`, `check_mode`); inside the sequential model of
  `Executor::step` no other borrows are live.
-/

set_option linter.constructorNameAsVariable false

namespace Piccolo

/-- `ThreadId` stands for a `Thread<'gc>` handle (a `Gc` pointer). -/
abbrev ThreadId := Nat

/-- `Function<'gc>`: a closure (with its prototype behind a handle) or a
native callback (opaque handle). Mirrors `function.rs`'s
`Function::Closure | Function::Callback`. -/
inductive FunctionV where
  | closure (h : Nat)
  | callback (h : Nat)
deriving DecidableEq, Repr

/-- `Value<'gc>` from `value.rs`: four inline primitives and five handle
variants. `number` carries the `f64` bit pattern. -/
inductive Value where
  | nil
  | boolean (b : Bool)
  | integer (i : Int)
  | number (bits : Nat)
  | string (h : Nat)
  | table (h : Nat)
  | function (f : FunctionV)
  | thread (t : ThreadId)
  | userdata (h : Nat)
deriving DecidableEq, Repr

/-- `ThreadMode` (thread.rs:24-39). -/
inductive ThreadMode where
  | stopped
  | result
  | normal
  | suspended
  | waiting
  | running
deriving DecidableEq, Repr

/-- `BadThreadMode` (thread.rs:41-50). -/
structure BadThreadMode where
  found : ThreadMode
  expected : Option ThreadMode
deriving DecidableEq, Repr

/-- `Error<'gc>` from `error.rs`: a raised Lua value or a runtime error.
Runtime errors arising from `BadThreadMode` (via `.into()`) are kept
distinguishable; other runtime errors are opaque. -/
inductive ErrorV where
  | lua (v : Value)
  | badThreadMode (e : BadThreadMode)
  | runtime (h : Nat)
deriving DecidableEq, Repr

/-- `VarCount` from `types.rs`: a constant count or "variable". -/
inductive VarCount where
  | const (n : Nat)
  | var
deriving DecidableEq, Repr

def VarCount.is_variable : VarCount → Bool
  | .const _ => false
  | .var => true

def VarCount.to_constant : VarCount → Option Nat
  | .const n => some n
  | .var => none

/-- `LuaReturn` (thread.rs:1249-1258). -/
inductive LuaReturn where
  | normal (n : VarCount)
  | meta (i : Option Nat)
deriving DecidableEq, Repr

/-- `Frame<'gc>` (thread.rs:1260-1300). Callback and sequence objects are
opaque handles. -/
inductive Frame where
  | lua (bottom base : Nat) (is_variable : Bool) (pc : Nat) (stack_size : Nat)
      (expected_return : Option LuaReturn)
  | start (f : FunctionV)
  | yielded
  | callback (bottom : Nat) (cb : Nat)
  | sequence (bottom : Nat) (seq : Nat) (pending_error : Option ErrorV)
  | waitThread
  | result (bottom : Nat)
  | error (e : ErrorV)
deriving DecidableEq, Repr

/-- Discriminator for the `Frame::Lua { .. }` pattern. -/
def Frame.isLua : Frame → Bool
  | .lua .. => true
  | _ => false

/-- Discriminator for the `Frame::Sequence { .. }` pattern. -/
def Frame.isSequence : Frame → Bool
  | .sequence .. => true
  | _ => false

/-- `ThreadState<'gc>` (thread.rs:1302-1308). `open_upvalues` holds upvalue
cell handles; the cells themselves live in the shared `UVHeap`. -/
structure ThreadState where
  frames : List Frame
  stack : List Value
  open_upvalues : List Nat
deriving DecidableEq, Repr

/-- `UpValueState<'gc>` from `closure.rs`: an open cell aliasing
`thread.stack[ind]`, or a closed cell owning a value. -/
inductive UpValueState where
  | opened (thread : ThreadId) (ind : Nat)
  | closed (v : Value)
deriving DecidableEq, Repr

/-- The shared arena of upvalue cells: cell contents keyed by handle, plus
the next fresh handle (`Gc::new` always returns a fresh cell). -/
structure UVHeap where
  cells : Nat → UpValueState
  next : Nat

/-- Write one upvalue cell (`Lock::set`). -/
def UVHeap.set (h : UVHeap) (u : Nat) (s : UpValueState) : UVHeap :=
  { h with cells := fun v => if v = u then s else h.cells v }

/-- Allocate a fresh open cell (`Gc::new(mc, Lock::new(...))`). -/
def UVHeap.alloc (h : UVHeap) (s : UpValueState) : UVHeap × Nat :=
  ({ cells := fun v => if v = h.next then s else h.cells v, next := h.next + 1 },
    h.next)

/-- `open_upvalue_ind` (thread.rs:1460-1465); panics (here: `none`) on a
closed cell. -/
def open_upvalue_ind (h : UVHeap) (u : Nat) : Option Nat :=
  match h.cells u with
  | .opened _ ind => some ind
  | .closed _ => none

/-- Total variant of `open_upvalue_ind` used inside binary-search
comparators; the default branch corresponds to the source's panic and is
never reached when every listed cell is open. -/
def uvInd (h : UVHeap) (u : Nat) : Nat :=
  (open_upvalue_ind h u).getD 0

/-! ### Vec helpers

Exact models of the `Vec`/slice operations the source uses. -/

/-- `Vec::resize(n, v)`: truncate to `n` or pad with `v` up to length `n`. -/
def vecResize (l : List Value) (n : Nat) (v : Value) : List Value :=
  l.take n ++ List.replicate (n - l.length) v

/-- `slice::rotate_right(k)` for `k ≤ l.length` (the source always satisfies
this bound; Rust panics otherwise). -/
def rotRight (l : List Value) (k : Nat) : List Value :=
  l.drop (l.length - k) ++ l.take (l.length - k)

/-- Pointwise update of the thread map (a write through a `RefLock`). -/
def updThread (m : ThreadId → ThreadState) (t : ThreadId) (s : ThreadState) :
    ThreadId → ThreadState :=
  fun u => if u = t then s else m u

/-! ### Rust `slice::binary_search_by`

The exact search loop from the standard library: `left`/`right` bisection,
returning `Sum.inl i` on a comparator hit at `i` and `Sum.inr left` on a
miss (`Ok(i)` / `Err(i)` in Rust). Specialised to the `List Nat` vectors of
upvalue handles the source searches. -/

def bsGo (f : Nat → Ordering) (l : List Nat) (left right : Nat) : Nat ⊕ Nat :=
  if _h : left < right then
    let mid := left + (right - left) / 2
    match f (l.getD mid 0) with
    | .lt => bsGo f l (mid + 1) right
    | .gt => bsGo f l left mid
    | .eq => .inl mid
  else .inr left
termination_by right - left
decreasing_by
  · omega
  · omega

def binary_search_by (f : Nat → Ordering) (l : List Nat) : Nat ⊕ Nat :=
  bsGo f l 0 l.length

/-- The position both call sites extract (`Ok(i) => i, Err(i) => i`). -/
def bsPos (f : Nat → Ordering) (l : List Nat) : Nat :=
  match binary_search_by f l with
  | .inl i => i
  | .inr i => i

/-! ### ThreadState operations (thread.rs:1310-1452) -/

/-- The static part of a closure prototype that `push_call` and the call
helpers read (`closure.0.proto.fixed_params`, `closure.0.proto.stack_size`).
A `protos : Nat → Proto` environment maps each closure handle to its
prototype. -/
structure Proto where
  fixed_params : Nat
  stack_size : Nat
deriving DecidableEq, Repr

/-- `ThreadState::mode` (thread.rs:1311-1333). The `debug_assert!` in the
empty branch is debug-only and elided, as in a release build. -/
def ThreadState.mode (s : ThreadState) : ThreadMode :=
  match s.frames.head? with
  | none => .stopped
  | some f =>
    match f with
    | .lua .. | .callback .. | .sequence .. => .normal
    | .start _ | .yielded => .suspended
    | .waitThread => .waiting
    | .result _ => .result
    | .error _ => if s.frames.length = 1 then .result else .normal

/-- `ThreadState::push_call` (thread.rs:1336-1366). -/
def ThreadState.push_call (protos : Nat → Proto) (s : ThreadState)
    (bottom : Nat) (function : FunctionV) : ThreadState :=
  match function with
  | .closure c =>
    let fixed_params := (protos c).fixed_params
    let stack_size := (protos c).stack_size
    let given_params := s.stack.length - bottom
    let var_params := if given_params > fixed_params then given_params - fixed_params else 0
    let stack1 := s.stack.take bottom ++ Value.function (.closure c) :: s.stack.drop bottom
    let stack2 := stack1.take (bottom + 1) ++ rotRight (stack1.drop (bottom + 1)) var_params
    let base := bottom + 1 + var_params
    let stack3 := vecResize stack2 (base + stack_size) .nil
    { s with
      stack := stack3
      frames := .lua bottom base false 0 stack_size none :: s.frames }
  | .callback cb =>
    { s with frames := .callback bottom cb :: s.frames }

/-- `ThreadState::return_to` (thread.rs:1371-1415). Returns `none` on the
panic branches (missing `expected_return`, a non-sequence/non-Lua frame
below, or a sequence-bottom mismatch). -/
def ThreadState.return_to (s : ThreadState) (bottom : Nat) : Option ThreadState :=
  match s.frames with
  | .sequence seq_bottom _ _ :: _ =>
    if bottom = seq_bottom then some s else none
  | .lua l_bottom base _is_variable pc stack_size expected_return :: rest =>
    let return_len := s.stack.length - bottom
    match expected_return with
    | some (.normal ret_count) =>
      let return_len := (ret_count.to_constant).getD return_len
      let stack1 := s.stack.take (bottom + return_len)
      let is_var := ret_count.is_variable
      let stack2 := if is_var then stack1 else vecResize stack1 (base + stack_size) .nil
      some { s with
        stack := stack2
        frames := .lua l_bottom base is_var pc stack_size expected_return :: rest }
    | some (.meta meta_ind) =>
      let meta_ret := (s.stack.get? bottom).getD .nil
      let stack1 := vecResize (s.stack.take bottom) (base + stack_size) .nil
      match meta_ind with
      | some mi =>
        if base + mi < stack1.length then
          some { s with
            stack := stack1.set (base + mi) meta_ret
            frames := .lua l_bottom base false pc stack_size expected_return :: rest }
        else none
      | none =>
        some { s with
          stack := stack1
          frames := .lua l_bottom base false pc stack_size expected_return :: rest }
    | none => none
  | [] => some { s with frames := [.result bottom] }
  | _ => none

/-- `ThreadState::take_result` (thread.rs:1417-1428). On success returns the
drained values (`Ok`) or the carried error (`Err`), together with the
mutated state; `none` on the panic branches. -/
def ThreadState.take_result (s : ThreadState) :
    Option (Except ErrorV (List Value) × ThreadState) :=
  match s.frames with
  | .result bottom :: rest =>
    some (.ok (s.stack.drop bottom), { s with frames := rest, stack := s.stack.take bottom })
  | .error err :: rest =>
    if s.stack = [] ∧ rest = [] ∧ s.open_upvalues = [] then
      some (.error err, { s with frames := rest })
    else none
  | _ => none

/-- The per-cell closing loop of `ThreadState::close_upvalues`
(thread.rs:1440-1448): each cell in the suffix must be open and owned by
this thread (asserted in the source), and is overwritten with
`Closed(stack[ind])`. -/
def closeCells (selfId : ThreadId) (stack : List Value) :
    UVHeap → List Nat → Option UVHeap
  | h, [] => some h
  | h, u :: rest =>
    match h.cells u with
    | .opened t ind =>
      if t = selfId then
        match stack.get? ind with
        | some v => closeCells selfId stack (h.set u (.closed v)) rest
        | none => none
      else none
    | .closed _ => none

/-- `ThreadState::close_upvalues` (thread.rs:1430-1451): binary-search for
the first open index `≥ bottom`, close every cell from there on, truncate
the list there. -/
def ThreadState.close_upvalues (h : UVHeap) (selfId : ThreadId)
    (s : ThreadState) (bottom : Nat) : Option (UVHeap × ThreadState) :=
  let start := bsPos (fun u => compare (uvInd h u) bottom) s.open_upvalues
  (closeCells selfId s.stack h (s.open_upvalues.drop start)).map fun h' =>
    (h', { s with open_upvalues := s.open_upvalues.take start })

/-! ### Thread public operations (thread.rs:70-206)

A `Thread` is a handle to a `RefLock<ThreadState>`; a mutable borrow that is
currently live is modelled by the `borrowed : Bool` argument. -/

/-- `Thread::mode` (thread.rs:86-91). -/
def Thread.mode (borrowed : Bool) (s : ThreadState) : ThreadMode :=
  if borrowed then .running else s.mode

/-- `Thread::check_mode` (thread.rs:183-205). The source asserts
`expected != Running`; every caller passes a non-`running` constant. -/
def Thread.check_mode (borrowed : Bool) (s : ThreadState) (expected : ThreadMode) :
    Except BadThreadMode Unit :=
  if borrowed then .error ⟨.running, some expected⟩
  else if s.mode = expected then .ok ()
  else .error ⟨s.mode, some expected⟩

/-- `Thread::start` (thread.rs:94-105). `none` is the `assert!` panic on a
non-empty stack. -/
def Thread.start (protos : Nat → Proto) (borrowed : Bool) (s : ThreadState)
    (function : FunctionV) (args : List Value) :
    Option (Except BadThreadMode ThreadState) :=
  match Thread.check_mode borrowed s .stopped with
  | .error e => some (.error e)
  | .ok () =>
    if s.stack = [] then
      some (.ok (ThreadState.push_call protos { s with stack := s.stack ++ args } 0 function))
    else none

/-- `Thread::start_suspended` (thread.rs:108-116). -/
def Thread.start_suspended (borrowed : Bool) (s : ThreadState) (function : FunctionV) :
    Option (Except BadThreadMode ThreadState) :=
  match Thread.check_mode borrowed s .stopped with
  | .error e => some (.error e)
  | .ok () => some (.ok { s with frames := .start function :: s.frames })

/-- `Thread::resume` (thread.rs:131-152). -/
def Thread.resume (protos : Nat → Proto) (borrowed : Bool) (s : ThreadState)
    (args : List Value) : Option (Except BadThreadMode ThreadState) :=
  match Thread.check_mode borrowed s .suspended with
  | .error e => some (.error e)
  | .ok () =>
    let bottom := s.stack.length
    let s1 := { s with stack := s.stack ++ args }
    match s1.frames with
    | .start f :: rest =>
      if bottom = 0 ∧ s1.open_upvalues = [] ∧ rest = [] then
        some (.ok (ThreadState.push_call protos { s1 with frames := rest } 0 f))
      else none
    | .yielded :: rest =>
      (ThreadState.return_to { s1 with frames := rest } bottom).map (.ok ·)
    | _ => none

/-- `Thread::resume_err` (thread.rs:155-163). -/
def Thread.resume_err (borrowed : Bool) (s : ThreadState) (e : ErrorV) :
    Option (Except BadThreadMode ThreadState) :=
  match Thread.check_mode borrowed s .suspended with
  | .error err => some (.error err)
  | .ok () =>
    match s.frames with
    | .start _ :: rest => some (.ok { s with frames := .error e :: rest })
    | .yielded :: rest => some (.ok { s with frames := .error e :: rest })
    | _ => none

/-- `Thread::take_result` (thread.rs:120-128), with the returned values kept
as a raw `List Value` (the `T = Variadic<Value>` instantiation, whose
conversion cannot fail). -/
def Thread.take_result (borrowed : Bool) (s : ThreadState) :
    Option (Except BadThreadMode (Except ErrorV (List Value) × ThreadState)) :=
  match Thread.check_mode borrowed s .result with
  | .error e => some (.error e)
  | .ok () => (ThreadState.take_result s).map (.ok ·)

/-! ### LuaRegisters (thread.rs:1151-1247) -/

/-- `LuaRegisters<'gc, 'a>`: the register view over the top Lua frame.
`upper_stack`/`stack_frame` are the two halves of the thread's value stack
split at `base`. -/
structure LuaRegisters where
  pc : Nat
  stack_frame : List Value
  upper_stack : List Value
  bottom : Nat
  base : Nat
  open_upvalues : List Nat
  thread : ThreadId
deriving Repr

/-- `LuaRegisters::open_upvalue` (thread.rs:1162-1175): binary-search by
open index; on a hit return the existing cell, on a miss allocate a fresh
`Open(self, ind)` cell and insert it at the reported position. Returns the
(possibly updated) heap and register view plus the cell handle. -/
def LuaRegisters.open_upvalue (h : UVHeap) (r : LuaRegisters) (reg : Nat) :
    UVHeap × LuaRegisters × Nat :=
  let ind := r.base + reg
  match binary_search_by (fun u => compare (uvInd h u) ind) r.open_upvalues with
  | .inl i => (h, r, r.open_upvalues.getD i 0)
  | .inr i =>
    let alloc := h.alloc (.opened r.thread ind)
    (alloc.1,
      { r with open_upvalues :=
          r.open_upvalues.take i ++ alloc.2 :: r.open_upvalues.drop i },
      alloc.2)

/-- `LuaRegisters::get_upvalue` (thread.rs:1177-1192). `none` is the failed
`assert!(ind < self.bottom)` or an out-of-bounds stack read. -/
def LuaRegisters.get_upvalue (h : UVHeap) (threads : ThreadId → ThreadState)
    (r : LuaRegisters) (upvalue : Nat) : Option Value :=
  match h.cells upvalue with
  | .opened upvalue_thread ind =>
    if upvalue_thread = r.thread then
      if ind < r.bottom then r.upper_stack.get? ind
      else none
    else (threads upvalue_thread).stack.get? ind
  | .closed v => some v

/-- `LuaRegisters::set_upvalue` (thread.rs:1194-1216). Note: in the
`Closed(v)` arm the source re-stores the cell's previous value `v` rather
than the incoming `value` (thread.rs:1212-1214); the model reproduces that
store exactly. -/
def LuaRegisters.set_upvalue (h : UVHeap) (threads : ThreadId → ThreadState)
    (r : LuaRegisters) (upvalue : Nat) (value : Value) :
    Option (UVHeap × (ThreadId → ThreadState) × LuaRegisters) :=
  match h.cells upvalue with
  | .opened upvalue_thread ind =>
    if upvalue_thread = r.thread then
      if ind < r.bottom then
        if ind < r.upper_stack.length then
          some (h, threads, { r with upper_stack := r.upper_stack.set ind value })
        else none
      else none
    else
      let ts := threads upvalue_thread
      if ind < ts.stack.length then
        some (h, updThread threads upvalue_thread { ts with stack := ts.stack.set ind value }, r)
      else none
  | .closed v =>
    some (h.set upvalue (.closed v), threads, r)

/-! ### Executor (thread.rs:208-605)

External collaborators — native callbacks (`AnyCallback::call`), sequences
(`AnySequence::poll` / `error`) and the opcode interpreter (`run_vm`) — are
out of scope of the core and are supplied as oracles. A callback or
sequence step conforms to the spec interface `fn(ctx, fuel, stack)`: it
observes the fuel and the stack slice above its bottom, rewrites that
slice, may rewrite other threads and upvalue cells, consumes a non-negative
amount of fuel, and produces a `CallbackReturn` / `SequencePoll` or an
error. `run_vm` may rewrite the whole current thread (and, through
cross-thread upvalues, other threads), consumes a non-negative amount of
fuel (its interior tariffs plus one unit per instruction executed), and
reports an error or the instruction count. -/

/-- Modelled from the spec: `Fuel` (`fuel.rs`, not part of the sources
here) "is a shared mutable integer counter"; it exposes `consume_fuel(i32)`
and `should_continue() -> bool`. `consume_fuel` subtracts;
`should_continue` is positivity of the counter. -/
structure Fuel where
  remaining : Int
deriving DecidableEq, Repr

def Fuel.consume_fuel (f : Fuel) (n : Int) : Fuel :=
  ⟨f.remaining - n⟩

def Fuel.should_continue (f : Fuel) : Bool :=
  0 < f.remaining

/-- Fuel tariffs (thread.rs:237-239). -/
def FUEL_PER_CALLBACK : Nat := 8
def FUEL_PER_SEQ_STEP : Nat := 4
def FUEL_PER_STEP : Nat := 4
/-- Opcode batch bound (thread.rs:489); absorbed into the `runVm` oracle. -/
def VM_GRANULARITY : Nat := 64

/-- `CallbackReturn<'gc>` from `callback.rs`. -/
inductive CallbackReturnV where
  | ret
  | sequence (seq : Nat)
  | call (function : FunctionV) (thn : Option Nat)
  | yield (to_thread : Option ThreadId) (thn : Option Nat)
  | resume (thread : ThreadId) (thn : Option Nat)
deriving DecidableEq, Repr

/-- `SequencePoll<'gc>` from `callback.rs`. -/
inductive SequencePollV where
  | pending
  | ret
  | yield (to_thread : Option ThreadId) (is_tail : Bool)
  | call (function : FunctionV) (is_tail : Bool)
  | resume (thread : ThreadId) (is_tail : Bool)
deriving DecidableEq, Repr

/-- The `SequencePoll → CallbackReturn` translation inside the sequence
dispatch (thread.rs:458-479): `is_tail` drops the `then`-continuation. -/
def seqPollRet (sequence : Nat) : SequencePollV → CallbackReturnV
  | .pending => .sequence sequence
  | .ret => .ret
  | .yield to_thread is_tail => .yield to_thread (if is_tail then none else some sequence)
  | .call f is_tail => .call f (if is_tail then none else some sequence)
  | .resume t is_tail => .resume t (if is_tail then none else some sequence)

/-- Outcome of one oracle invocation of a callback or of a sequence
`poll`/`error`. -/
structure CallbackOut where
  stack : List Value
  threads : ThreadId → ThreadState
  uvheap : UVHeap
  fuelUsed : Nat
  result : Except ErrorV CallbackReturnV

/-- Outcome of one oracle invocation of `run_vm`: the rewritten current
thread, the rewritten other threads and upvalue heap, the fuel consumed, and
either an error or the executed instruction count. -/
structure VmOut where
  state : ThreadState
  threads : ThreadId → ThreadState
  uvheap : UVHeap
  fuelUsed : Nat
  result : Except ErrorV Nat

structure SeqOut where
  stack : List Value
  threads : ThreadId → ThreadState
  uvheap : UVHeap
  fuelUsed : Nat
  result : Except ErrorV SequencePollV

/-- The environment of external collaborators for `Executor::step`. -/
structure Oracles where
  protos : Nat → Proto
  callCallback : Nat → Fuel → List Value → (ThreadId → ThreadState) → UVHeap → CallbackOut
  seqPoll : Nat → Fuel → List Value → (ThreadId → ThreadState) → UVHeap → SeqOut
  seqError : Nat → ErrorV → Fuel → List Value → (ThreadId → ThreadState) → UVHeap → SeqOut
  runVm : Fuel → ThreadState → (ThreadId → ThreadState) → UVHeap → VmOut

/-- The inner `callback_ret` function of `Executor::step`
(thread.rs:351-428). `thread_stack` has the current thread (`curId`) on
top; `top_state` is the current thread's state with the dispatched frame
already popped; `stack_bottom` is that frame's bottom. Returns the updated
executor thread stack, the updated other threads, and the updated current
thread state. A resume of the current thread itself hits the live borrow
and surfaces as a `Running` `BadThreadMode` error frame, exactly as the
failed `try_borrow_mut` does in the source. -/
def callback_ret (protos : Nat → Proto) (thread_stack : List ThreadId)
    (threads : ThreadId → ThreadState) (curId : ThreadId)
    (top_state : ThreadState) (stack_bottom : Nat) (ret : CallbackReturnV) :
    Option (List ThreadId × (ThreadId → ThreadState) × ThreadState) :=
  match ret with
  | .ret =>
    (top_state.return_to stack_bottom).map fun t => (thread_stack, threads, t)
  | .sequence sequence =>
    some (thread_stack, threads,
      { top_state with frames := .sequence stack_bottom sequence none :: top_state.frames })
  | .yield to_thread thn =>
    let top1 :=
      match thn with
      | some sequence =>
        { top_state with frames := .sequence stack_bottom sequence none :: top_state.frames }
      | none => top_state
    let top2 := { top1 with frames := .yielded :: top1.frames }
    match to_thread with
    | some t =>
      let args := top2.stack.drop stack_bottom
      let top3 := { top2 with stack := top2.stack.take stack_bottom }
      match Thread.resume protos (t = curId) (threads t) args with
      | none => none
      | some (.error e) =>
        some (thread_stack, threads,
          { top3 with frames := .error (.badThreadMode e) :: top3.frames })
      | some (.ok tSt) =>
        some (t :: thread_stack.tail, updThread threads t tSt, top3)
    | none =>
      some (thread_stack, threads,
        { top2 with frames := .result stack_bottom :: top2.frames })
  | .call function thn =>
    let top1 :=
      match thn with
      | some sequence =>
        { top_state with frames := .sequence stack_bottom sequence none :: top_state.frames }
      | none => top_state
    some (thread_stack, threads, top1.push_call protos stack_bottom function)
  | .resume thread thn =>
    let top1 :=
      match thn with
      | some sequence =>
        { top_state with frames := .sequence stack_bottom sequence none :: top_state.frames }
      | none => top_state
    let top2 := { top1 with frames := .waitThread :: top1.frames }
    let args := top2.stack.drop stack_bottom
    let top3 := { top2 with stack := top2.stack.take stack_bottom }
    match Thread.resume protos (thread = curId) (threads thread) args with
    | none => none
    | some (.error e) =>
      some (thread_stack, threads,
        { top3 with frames := .error (.badThreadMode e) :: top3.frames })
    | some (.ok tSt) =>
      if top3.frames = [.waitThread] then
        -- tail-chain: pop self before pushing the resumed thread
        some (thread :: thread_stack.tail, updThread threads thread tSt, top3)
      else
        some (thread :: thread_stack, updThread threads thread tSt, top3)

/-- The `Frame::Error` arm of the dispatch in `Executor::step`
(thread.rs:505-531), applied to the state left after the `Error(err)` frame
itself was popped: pop the frame beneath and unwind it. -/
def unwindError (h : UVHeap) (selfId : ThreadId) (st : ThreadState) (err : ErrorV) :
    Option (UVHeap × ThreadState) :=
  match st.frames with
  | [] => none  -- expect "normal thread must have frame above error"
  | .lua bottom _ _ _ _ _ :: rest =>
    (ThreadState.close_upvalues h selfId { st with frames := rest } bottom).map
      fun p => (p.1, { p.2 with stack := p.2.stack.take bottom, frames := .error err :: rest })
  | .sequence bottom sequence pending_error :: rest =>
    if pending_error = none then
      some (h, { st with frames := .sequence bottom sequence (some err) :: rest })
    else none  -- failed assert!(error.is_none())
  | _ :: rest => some (h, { st with frames := .error err :: rest })

/-- The executor's mutable state: the thread stack (current thread at the
head), every thread's state, and the upvalue heap. -/
structure ExecState where
  thread_stack : List ThreadId
  threads : ThreadId → ThreadState
  uvheap : UVHeap

/-- Outcome of one iteration of the `Executor::step` loop: `finished` is
`break true`; `looped` carries the new state and the (non-negative) fuel
consumed by the iteration, excluding the trailing `FUEL_PER_STEP`. -/
inductive StepIterOut where
  | finished (s : ExecState)
  | looped (s : ExecState) (used : Nat)

/-- Result transport and frame dispatch of one loop iteration
(thread.rs:306-533). `curId` is the peeked top thread, `stack1` the thread
stack after the optional pop of `res`, `res` the popped finished thread. -/
def stepDispatch (O : Oracles) (s : ExecState) (fuel : Fuel) (curId : ThreadId)
    (stack1 : List ThreadId) (res : Option ThreadId) : Option StepIterOut :=
  -- result transport from a popped `res_thread` (thread.rs:307-348)
  let phaseB : Option (ThreadState × (ThreadId → ThreadState)) :=
    let top := s.threads curId
    match res with
    | none => some (top, s.threads)
    | some rtId =>
      if rtId = curId then none  -- double mutable borrow panics
      else
        let mode := top.mode
        if mode = .waiting then
          match top.frames with
          | .waitThread :: fr =>
            let top1 := { top with frames := fr }
            match (s.threads rtId).mode with
            | .result =>
              match ThreadState.take_result (s.threads rtId) with
              | some (.ok vals, rtSt) =>
                let bottom := top1.stack.length
                (ThreadState.return_to { top1 with stack := top1.stack ++ vals } bottom).map
                  fun t2 => (t2, updThread s.threads rtId rtSt)
              | some (.error err, rtSt) =>
                some ({ top1 with frames := .error err :: top1.frames },
                  updThread s.threads rtId rtSt)
              | none => none
            | .normal => none  -- unreachable!()
            | m =>
              some ({ top1 with frames := .error (.badThreadMode ⟨m, none⟩) :: top1.frames },
                s.threads)
          | _ => none  -- failed assert: top frame must be WaitThread
        else
          some ({ top with frames := .error (.badThreadMode ⟨mode, none⟩) :: top.frames },
            s.threads)
  match phaseB with
  | none => none
  | some (top, threads1) =>
    if top.mode = .normal then
      match top.frames with
      | .callback bottom cb :: fr =>
        let fuel1 := fuel.consume_fuel (FUEL_PER_CALLBACK : Nat)
        let out := O.callCallback cb fuel1 (top.stack.drop bottom) threads1 s.uvheap
        let top1 := { top with frames := fr, stack := top.stack.take bottom ++ out.stack }
        let used := FUEL_PER_CALLBACK + out.fuelUsed
        match out.result with
        | .ok ret =>
          (callback_ret O.protos stack1 out.threads curId top1 bottom ret).map
            fun r => .looped ⟨r.1, updThread r.2.1 curId r.2.2, out.uvheap⟩ used
        | .error err =>
          some (.looped
            ⟨stack1,
              updThread out.threads curId { top1 with frames := .error err :: top1.frames },
              out.uvheap⟩ used)
      | .sequence bottom sequence pending_error :: fr =>
        let fuel1 := fuel.consume_fuel (FUEL_PER_SEQ_STEP : Nat)
        let out :=
          match pending_error with
          | some e => O.seqError sequence e fuel1 (top.stack.drop bottom) threads1 s.uvheap
          | none => O.seqPoll sequence fuel1 (top.stack.drop bottom) threads1 s.uvheap
        let top1 := { top with frames := fr, stack := top.stack.take bottom ++ out.stack }
        let used := FUEL_PER_SEQ_STEP + out.fuelUsed
        match out.result with
        | .ok poll =>
          (callback_ret O.protos stack1 out.threads curId top1 bottom
              (seqPollRet sequence poll)).map
            fun r => .looped ⟨r.1, updThread r.2.1 curId r.2.2, out.uvheap⟩ used
        | .error e =>
          some (.looped
            ⟨stack1,
              updThread out.threads curId { top1 with frames := .error e :: top1.frames },
              out.uvheap⟩ used)
      | .lua _ _ _ _ _ _ :: _ =>
        -- the frame is popped and pushed back unchanged before entering the
        -- interpreter, so `top` is passed whole
        let out := O.runVm fuel top threads1 s.uvheap
        match out.result with
        | .ok instructions_run =>
          some (.looped ⟨stack1, updThread out.threads curId out.state, out.uvheap⟩
            (out.fuelUsed + instructions_run))
        | .error err =>
          some (.looped
            ⟨stack1,
              updThread out.threads curId
                { out.state with frames := .error err :: out.state.frames },
              out.uvheap⟩ out.fuelUsed)
      | .error err :: fr =>
        (unwindError s.uvheap curId { top with frames := fr } err).map
          fun p => .looped ⟨stack1, updThread threads1 curId p.2, p.1⟩ 0
      | _ => none  -- panic "tried to step invalid frame type"
    else
      some (.looped ⟨stack1, updThread threads1 curId top, s.uvheap⟩ 0)

/-- One iteration of the `Executor::step` loop (thread.rs:287-304 plus the
dispatch): peek the top thread; if it is not `Normal` and is the only
thread, finish (`break true`); otherwise pop it as the finished
`res_thread` and dispatch on the thread below. In this sequential model no
thread is borrowed while the loop peeks, so `Running` (a panic in the
source) cannot be observed. -/
def stepIter (O : Oracles) (s : ExecState) (fuel : Fuel) : Option StepIterOut :=
  match s.thread_stack with
  | [] => none  -- `thread_stack.last().unwrap()` on an empty stack
  | topId :: rest =>
    if (s.threads topId).mode = .normal then
      stepDispatch O s fuel topId (topId :: rest) none
    else
      match rest with
      | [] => some (.finished s)
      | topId1 :: _ => stepDispatch O s fuel topId1 rest (some topId)

/-- The `Executor::step` loop (thread.rs:287-540). Returns the Rust return
value, the final state, the final fuel and the number of completed loop
iterations (each of which transports a result or dispatches one frame).
Fuel bookkeeping: every tariff is a subtraction on an integer counter, so
charging an iteration's total `used + FUEL_PER_STEP` at the loop tail is
the same arithmetic as the source's interleaved charges, and each oracle
still observes the fuel value the source would hand it. -/
def stepLoop (O : Oracles) (s : ExecState) (fuel : Fuel) (trans : Nat) :
    Option (Bool × ExecState × Fuel × Nat) :=
  match stepIter O s fuel with
  | none => none
  | some (.finished s1) => some (true, s1, fuel, trans)
  | some (.looped s1 used) =>
    if (fuel.consume_fuel ((used : Int) + (FUEL_PER_STEP : Nat))).should_continue then
      stepLoop O s1 (fuel.consume_fuel ((used : Int) + (FUEL_PER_STEP : Nat))) (trans + 1)
    else some (false, s1, fuel.consume_fuel ((used : Int) + (FUEL_PER_STEP : Nat)), trans + 1)
termination_by fuel.remaining.toNat
decreasing_by
  simp only [Fuel.should_continue, Fuel.consume_fuel, FUEL_PER_STEP,
    decide_eq_true_eq] at *
  omega

/-- `Executor::step` (thread.rs:284-541). -/
def Executor.step (O : Oracles) (s : ExecState) (fuel : Fuel) :
    Option (Bool × ExecState × Fuel × Nat) :=
  stepLoop O s fuel 0

/-- `Executor::mode` (thread.rs:264-274): more than one thread on the stack
reports `Normal`, otherwise the single thread's mode; `none` is the panic
of indexing an empty stack. -/
def Executor.mode (thread_stack : List ThreadId) (threads : ThreadId → ThreadState) :
    Option ThreadMode :=
  if thread_stack.length > 1 then some .normal
  else
    match thread_stack with
    | [] => none
    | t :: _ => some (Thread.mode false (threads t))

/-- `Executor::take_result` (thread.rs:543-556). -/
def Executor.take_result (thread_stack : List ThreadId)
    (threads : ThreadId → ThreadState) :
    Option (Except BadThreadMode (Except ErrorV (List Value) × ThreadState)) :=
  if thread_stack.length > 1 then some (.error ⟨.normal, some .result⟩)
  else
    match thread_stack with
    | [] => none
    | t :: _ => Thread.take_result false (threads t)

/-- `Executor::resume` (thread.rs:558-572). -/
def Executor.resume (protos : Nat → Proto) (thread_stack : List ThreadId)
    (threads : ThreadId → ThreadState) (args : List Value) :
    Option (Except BadThreadMode ThreadState) :=
  if thread_stack.length > 1 then some (.error ⟨.normal, some .suspended⟩)
  else
    match thread_stack with
    | [] => none
    | t :: _ => Thread.resume protos false (threads t) args

/-- `Executor::resume_err` (thread.rs:574-584). -/
def Executor.resume_err (thread_stack : List ThreadId)
    (threads : ThreadId → ThreadState) (e : ErrorV) :
    Option (Except BadThreadMode ThreadState) :=
  if thread_stack.length > 1 then some (.error ⟨.normal, some .suspended⟩)
  else
    match thread_stack with
    | [] => none
    | t :: _ => Thread.resume_err false (threads t) e

/-! ### Stash boundary (stash.rs)

`DynamicRootSet` (gc_arena, an external collaborator) installs a handle as
a GC root and hands back exactly that handle on `fetch`; a stashed root is
therefore modelled as the handle it keeps alive. The interesting part of
`stash.rs` — the per-variant dispatch between inline primitives and rooted
handles — is embedded verbatim. -/

structure StashedString where
  root : Nat
deriving DecidableEq, Repr

structure StashedTable where
  root : Nat
deriving DecidableEq, Repr

structure StashedClosure where
  root : Nat
deriving DecidableEq, Repr

structure StashedCallback where
  root : Nat
deriving DecidableEq, Repr

structure StashedThread where
  root : Nat
deriving DecidableEq, Repr

structure StashedUserData where
  root : Nat
deriving DecidableEq, Repr

/-- `StashedFunction` (stash.rs:99-103). -/
inductive StashedFunction where
  | closure (c : StashedClosure)
  | callback (c : StashedCallback)
deriving DecidableEq, Repr

/-- `StashedValue` (stash.rs:117-128): primitives inline, handles stashed. -/
inductive StashedValue where
  | nil
  | boolean (b : Bool)
  | integer (i : Int)
  | number (bits : Nat)
  | string (s : StashedString)
  | table (t : StashedTable)
  | function (f : StashedFunction)
  | thread (t : StashedThread)
  | userdata (u : StashedUserData)
deriving DecidableEq, Repr

/-- `Stashable for Function` (stash.rs:261-270). -/
def FunctionV.stash : FunctionV → StashedFunction
  | .closure c => .closure ⟨c⟩
  | .callback c => .callback ⟨c⟩

/-- `Fetchable for StashedFunction` (stash.rs:272-281). -/
def StashedFunction.fetch : StashedFunction → FunctionV
  | .closure c => .closure c.root
  | .callback c => .callback c.root

/-- `Stashable for Value` (stash.rs:283-299). -/
def Value.stash : Value → StashedValue
  | .nil => .nil
  | .boolean b => .boolean b
  | .integer i => .integer i
  | .number n => .number n
  | .string s => .string ⟨s⟩
  | .table t => .table ⟨t⟩
  | .function f => .function f.stash
  | .thread t => .thread ⟨t⟩
  | .userdata u => .userdata ⟨u⟩

/-- `Fetchable for StashedValue` (stash.rs:301-317). -/
def StashedValue.fetch : StashedValue → Value
  | .nil => .nil
  | .boolean b => .boolean b
  | .integer i => .integer i
  | .number n => .number n
  | .string s => .string s.root
  | .table t => .table t.root
  | .function f => .function f.fetch
  | .thread t => .thread t.root
  | .userdata u => .userdata u.root

/-! ## Theorems -/

/-! ### Binary search bounds -/

/-- Unfolding equation for `bsGo`. -/
theorem bsGo_eq (f : Nat → Ordering) (l : List Nat) (left right : Nat) :
    bsGo f l left right =
      if left < right then
        match f (l.getD (left + (right - left) / 2) 0) with
        | .lt => bsGo f l (left + (right - left) / 2 + 1) right
        | .gt => bsGo f l left (left + (right - left) / 2)
        | .eq => .inl (left + (right - left) / 2)
      else .inr left := by
  rw [bsGo]; rfl

/-- Correctness of the bisection loop on a strictly sorted slice: a hit
names an element with the searched key, a miss names the insertion point,
with strict key bounds on both sides of the returned position. -/
theorem bsGo_spec (key : Nat → Nat) (t : Nat) (l : List Nat)
    (hsorted : ∀ i j, i < j → j < l.length → key (l.getD i 0) < key (l.getD j 0)) :
    ∀ (n left right : Nat), right - left ≤ n → right ≤ l.length → left ≤ right →
    (∀ j, j < left → key (l.getD j 0) < t) →
    (∀ j, right ≤ j → j < l.length → t < key (l.getD j 0)) →
    ((∀ i, bsGo (fun u => compare (key u) t) l left right = .inl i →
        i < l.length ∧ key (l.getD i 0) = t ∧
        (∀ j, j < i → key (l.getD j 0) < t) ∧
        ∀ j, i ≤ j → j < l.length → t ≤ key (l.getD j 0)) ∧
     (∀ i, bsGo (fun u => compare (key u) t) l left right = .inr i →
        i ≤ l.length ∧
        (∀ j, j < i → key (l.getD j 0) < t) ∧
        ∀ j, i ≤ j → j < l.length → t < key (l.getD j 0))) := by
  intro n
  induction n with
  | zero =>
    intro left right hd hr hlr hlo hhi
    have hleft : ¬ left < right := by omega
    rw [bsGo_eq]
    simp only [if_neg hleft]
    constructor
    · intro i hi; cases hi
    · intro i hi
      cases hi
      exact ⟨by omega, hlo, fun j hj1 hj2 => hhi j (by omega) hj2⟩
  | succ n ih =>
    intro left right hd hr hlr hlo hhi
    by_cases hleft : left < right
    · rw [bsGo_eq]
      simp only [if_pos hleft]
      set mid := left + (right - left) / 2 with hmid
      have hmid1 : left ≤ mid := by omega
      have hmid2 : mid < right := by omega
      have hmidlen : mid < l.length := by omega
      cases hc : compare (key (l.getD mid 0)) t with
      | lt =>
        have hklt : key (l.getD mid 0) < t := Nat.compare_eq_lt.mp hc
        have hlo2 : ∀ j, j < mid + 1 → key (l.getD j 0) < t := by
          intro j hj
          rcases Nat.lt_or_ge j mid with hjm | hjm
          · exact lt_trans (hsorted j mid hjm hmidlen) hklt
          · have : j = mid := by omega
            simpa [this] using hklt
        exact ih (mid + 1) right (by omega) hr (by omega) hlo2 hhi
      | gt =>
        have hkgt : t < key (l.getD mid 0) := Nat.compare_eq_gt.mp hc
        have hhi2 : ∀ j, mid ≤ j → j < l.length → t < key (l.getD j 0) := by
          intro j hj1 hj2
          rcases Nat.lt_or_ge mid j with hjm | hjm
          · exact lt_trans hkgt (hsorted mid j hjm hj2)
          · have : j = mid := by omega
            simpa [this] using hkgt
        exact ih left mid (by omega) (by omega) (by omega) hlo hhi2
      | eq =>
        have hkeq : key (l.getD mid 0) = t := Nat.compare_eq_eq.mp hc
        constructor
        · intro i hi
          cases hi
          refine ⟨hmidlen, hkeq, ?_, ?_⟩
          · intro j hj
            rcases Nat.lt_or_ge j left with hjl | hjl
            · exact hlo j hjl
            · exact hkeq ▸ hsorted j mid hj hmidlen
          · intro j hj1 hj2
            rcases Nat.lt_or_ge mid j with hjm | hjm
            · exact le_of_lt (hkeq ▸ hsorted mid j hjm hj2)
            · have hjmid : j = mid := by omega
              subst hjmid
              exact le_of_eq hkeq.symm
        · intro i hi; cases hi
    · rw [bsGo_eq]
      simp only [if_neg hleft]
      constructor
      · intro i hi; cases hi
      · intro i hi
        cases hi
        exact ⟨by omega, hlo, fun j hj1 hj2 => hhi j (by omega) hj2⟩

/-- A `Pairwise` key ordering gives the indexed ordering `bsGo_spec`
expects. -/
theorem pairwise_key_index {key : Nat → Nat} {l : List Nat}
    (h : List.Pairwise (fun a b => key a < key b) l) :
    ∀ i j, i < j → j < l.length → key (l.getD i 0) < key (l.getD j 0) := by
  intro i j hij hj
  have hi : i < l.length := lt_trans hij hj
  have hg := List.pairwise_iff_getElem.mp h i j hi hj hij
  rwa [List.getD_eq_getElem l 0 hi, List.getD_eq_getElem l 0 hj]

/-- `binary_search_by` (the full-slice search) on a strictly sorted list. -/
theorem binary_search_by_spec (key : Nat → Nat) (t : Nat) (l : List Nat)
    (hsorted : List.Pairwise (fun a b => key a < key b) l) :
    (∀ i, binary_search_by (fun u => compare (key u) t) l = .inl i →
        i < l.length ∧ key (l.getD i 0) = t ∧
        (∀ j, j < i → key (l.getD j 0) < t) ∧
        ∀ j, i ≤ j → j < l.length → t ≤ key (l.getD j 0)) ∧
    (∀ i, binary_search_by (fun u => compare (key u) t) l = .inr i →
        i ≤ l.length ∧
        (∀ j, j < i → key (l.getD j 0) < t) ∧
        ∀ j, i ≤ j → j < l.length → t < key (l.getD j 0)) :=
  bsGo_spec key t l (pairwise_key_index hsorted) l.length 0 l.length
    (by omega) le_rfl (by omega)
    (fun j hj => absurd hj (by omega))
    (fun j hj1 hj2 => absurd (lt_of_le_of_lt hj1 hj2) (lt_irrefl _))

/-- The extracted position `bsPos` splits a strictly sorted list at the
searched key: strictly below-key entries before it, at-or-above-key entries
from it on. -/
theorem bsPos_spec (key : Nat → Nat) (t : Nat) (l : List Nat)
    (hsorted : List.Pairwise (fun a b => key a < key b) l) :
    bsPos (fun u => compare (key u) t) l ≤ l.length ∧
    (∀ j, j < bsPos (fun u => compare (key u) t) l → key (l.getD j 0) < t) ∧
    (∀ j, bsPos (fun u => compare (key u) t) l ≤ j → j < l.length →
      t ≤ key (l.getD j 0)) := by
  have h := binary_search_by_spec key t l hsorted
  unfold bsPos
  cases hb : binary_search_by (fun u => compare (key u) t) l with
  | inl i =>
    obtain ⟨h1, _, h3, h4⟩ := h.1 i hb
    exact ⟨le_of_lt h1, h3, h4⟩
  | inr i =>
    obtain ⟨h1, h2, h3⟩ := h.2 i hb
    exact ⟨h1, h2, fun j hj1 hj2 => le_of_lt (h3 j hj1 hj2)⟩

/-! ### close_upvalues characterisation -/

/-- The closing loop `closeCells` on a duplicate-free list of open cells
owned by `selfId`: it succeeds, closes exactly the listed cells with the
stack value at their open index, and touches nothing else. -/
theorem closeCells_spec (selfId : ThreadId) (stack : List Value) :
    ∀ (l : List Nat) (h : UVHeap),
    (∀ u ∈ l, ∃ i, h.cells u = .opened selfId i ∧ i < stack.length) →
    l.Nodup →
    ∃ h2, closeCells selfId stack h l = some h2 ∧
      h2.next = h.next ∧
      (∀ u ∈ l, ∀ i, h.cells u = .opened selfId i →
          h2.cells u = .closed (stack.getD i .nil)) ∧
      (∀ u, u ∉ l → h2.cells u = h.cells u) := by
  intro l
  induction l with
  | nil =>
    exact fun h _ _ => ⟨h, rfl, rfl, by simp, fun u _ => rfl⟩
  | cons u rest ih =>
    intro h hopen hnodup
    obtain ⟨i, hcell, hlen⟩ := hopen u (List.mem_cons_self u rest)
    have hget : stack.get? i = some stack[i] := by
      simp [List.get?_eq_getElem?, List.getElem?_eq_getElem, hlen]
    have hunotinrest : u ∉ rest := (List.nodup_cons.mp hnodup).1
    have hopen2 : ∀ w ∈ rest,
        ∃ j, (h.set u (.closed stack[i])).cells w = .opened selfId j ∧ j < stack.length := by
      intro w hw
      obtain ⟨j, hc, hl⟩ := hopen w (List.mem_cons_of_mem u hw)
      refine ⟨j, ?_, hl⟩
      simp only [UVHeap.set]
      rw [if_neg (by rintro rfl; exact hunotinrest hw)]
      exact hc
    obtain ⟨h2, hrun, hnext, hclosed, hrest⟩ :=
      ih (h.set u (.closed stack[i])) hopen2 (List.nodup_cons.mp hnodup).2
    refine ⟨h2, ?_, hnext, ?_, ?_⟩
    · simp only [closeCells, hcell, if_pos rfl, hget]
      exact hrun
    · intro w hw j hcw
      rcases List.mem_cons.mp hw with rfl | hw2
      · rw [hcell] at hcw
        cases hcw
        rw [hrest w hunotinrest, List.getD_eq_getElem stack .nil hlen]
        simp [UVHeap.set]
      · refine hclosed w hw2 j ?_
        simp only [UVHeap.set]
        rw [if_neg (by rintro rfl; exact hunotinrest hw2)]
        exact hcw
    · intro w hw
      have hwu : w ≠ u := fun he => hw (he ▸ List.mem_cons_self u rest)
      rw [hrest w (fun hc => hw (List.mem_cons_of_mem u hc))]
      simp only [UVHeap.set]
      rw [if_neg hwu]

/-- Characterisation of `ThreadState::close_upvalues` under the thread
invariants (all listed cells open, owned by this thread, in stack bounds,
strictly sorted by open index): it succeeds, keeps exactly the prefix of
cells with open index `< bottom` (untouched), and closes every cell with
open index `≥ bottom` with the stack value at that index. -/
theorem close_upvalues_spec (h : UVHeap) (selfId : ThreadId) (s : ThreadState)
    (bottom : Nat)
    (hopen : ∀ u ∈ s.open_upvalues,
        ∃ i, h.cells u = .opened selfId i ∧ i < s.stack.length)
    (hsorted : List.Pairwise (fun a b => uvInd h a < uvInd h b) s.open_upvalues) :
    ∃ pos h2,
      ThreadState.close_upvalues h selfId s bottom
        = some (h2, { s with open_upvalues := s.open_upvalues.take pos }) ∧
      h2.next = h.next ∧
      (∀ u ∈ s.open_upvalues.take pos, uvInd h u < bottom ∧ h2.cells u = h.cells u) ∧
      (∀ u ∈ s.open_upvalues, uvInd h u < bottom → u ∈ s.open_upvalues.take pos) ∧
      (∀ u ∈ s.open_upvalues, bottom ≤ uvInd h u →
          u ∉ s.open_upvalues.take pos ∧
          h2.cells u = .closed (s.stack.getD (uvInd h u) .nil)) ∧
      (∀ u, u ∉ s.open_upvalues → h2.cells u = h.cells u) := by
  obtain ⟨hposlen, hpre, hsuf⟩ := bsPos_spec (uvInd h) bottom s.open_upvalues hsorted
  set l := s.open_upvalues with hl
  set pos := bsPos (fun u => compare (uvInd h u) bottom) l with hpos
  have hnodup : l.Nodup := hsorted.imp (fun hab => by rintro rfl; exact lt_irrefl _ hab)
  have hopend : ∀ u ∈ l.drop pos,
      ∃ i, h.cells u = .opened selfId i ∧ i < s.stack.length :=
    fun u hu => hopen u ((List.drop_sublist pos l).mem hu)
  obtain ⟨h2, hrun, hnext, hclosed, huntouched⟩ :=
    closeCells_spec selfId s.stack (l.drop pos) h hopend
      (hnodup.sublist (List.drop_sublist pos l))
  -- membership in the kept prefix means open index < bottom
  have htake_lt : ∀ u ∈ l.take pos, uvInd h u < bottom := by
    intro u hu
    obtain ⟨j, hj, hju⟩ := List.mem_iff_getElem.mp hu
    have hjpos : j < pos := by
      have := hj; rw [List.length_take] at this; omega
    have hjlen : j < l.length := by
      have := hj; rw [List.length_take] at this; omega
    rw [List.getElem_take] at hju
    have := hpre j hjpos
    rwa [List.getD_eq_getElem l 0 hjlen, hju] at this
  -- membership in the dropped suffix means open index ≥ bottom
  have hdrop_ge : ∀ u ∈ l.drop pos, bottom ≤ uvInd h u := by
    intro u hu
    obtain ⟨j, hj, hju⟩ := List.mem_iff_getElem.mp hu
    have hjlen : pos + j < l.length := by
      have := hj; rw [List.length_drop] at this; omega
    rw [List.getElem_drop] at hju
    have := hsuf (pos + j) (by omega) hjlen
    rwa [List.getD_eq_getElem l 0 hjlen, hju] at this
  have htakedrop : ∀ u ∈ l, u ∈ l.take pos ∨ u ∈ l.drop pos := by
    intro u hu
    rw [← List.take_append_drop pos l] at hu
    exact List.mem_append.mp hu
  have hdisj : ∀ u ∈ l.take pos, u ∉ l.drop pos := by
    intro u hu hv
    rw [← List.take_append_drop pos l] at hnodup
    exact List.disjoint_of_nodup_append hnodup hu hv
  refine ⟨pos, h2, ?_, hnext, ?_, ?_, ?_, ?_⟩
  · simp only [ThreadState.close_upvalues, ← hl, ← hpos, hrun, Option.map_some']
  · exact fun u hu => ⟨htake_lt u hu, huntouched u (hdisj u hu)⟩
  · intro u hu hlt
    rcases htakedrop u hu with ht | hd
    · exact ht
    · exact absurd (hdrop_ge u hd) (by omega)
  · intro u hu hge
    have hnt : u ∉ l.take pos := fun ht => absurd (htake_lt u ht) (by omega)
    have hd : u ∈ l.drop pos := (htakedrop u hu).resolve_left hnt
    obtain ⟨i, hcell, hlen⟩ := hopen u hu
    have hind : uvInd h u = i := by
      simp [uvInd, open_upvalue_ind, hcell]
    exact ⟨hnt, by rw [hind]; exact hclosed u hd i hcell⟩
  · intro u hu
    exact huntouched u (fun hd => hu ((List.drop_sublist pos l).mem hd))

/-- Claim C6: after `close_upvalues(mc, bottom)` (under the documented
invariants: all listed cells open, owned by this thread, in stack bounds,
strictly sorted by open index), the `open_upvalues` list contains no cell
with open index `≥ bottom`; every removed cell is `Closed` holding exactly
the value `stack[ind]` held at closing time; and cells with open index
`< bottom` are unchanged (still listed, same cell contents). -/
theorem C6_close_upvalues_post (h : UVHeap) (selfId : ThreadId) (s : ThreadState)
    (bottom : Nat)
    (hopen : ∀ u ∈ s.open_upvalues,
        ∃ i, h.cells u = .opened selfId i ∧ i < s.stack.length)
    (hsorted : List.Pairwise (fun a b => uvInd h a < uvInd h b) s.open_upvalues) :
    ∃ h2 keep,
      ThreadState.close_upvalues h selfId s bottom
        = some (h2, { s with open_upvalues := keep }) ∧
      (∀ u ∈ keep, uvInd h2 u < bottom) ∧
      (∀ u ∈ s.open_upvalues, bottom ≤ uvInd h u →
          u ∉ keep ∧ h2.cells u = .closed (s.stack.getD (uvInd h u) .nil)) ∧
      (∀ u ∈ s.open_upvalues, uvInd h u < bottom →
          u ∈ keep ∧ h2.cells u = h.cells u) := by
  obtain ⟨pos, h2, hrun, _, htake, hmemlt, hmemge, _⟩ :=
    close_upvalues_spec h selfId s bottom hopen hsorted
  refine ⟨h2, _, hrun, ?_, hmemge, ?_⟩
  · intro u hu
    obtain ⟨hlt, hcells⟩ := htake u hu
    have he : uvInd h2 u = uvInd h u := by
      unfold uvInd open_upvalue_ind
      rw [hcells]
    omega
  · intro u hu hlt
    have hk := hmemlt u hu hlt
    exact ⟨hk, (htake u hk).2⟩

/-- Witness for C6: two open cells (indices 0 and 1) on a two-value stack,
closing at bottom 1 keeps cell 5 and closes cell 6 around `Integer 20`. -/
theorem C6_close_upvalues_post_witness :
    ∃ h2 keep,
      ThreadState.close_upvalues
          ⟨fun u => if u = 5 then .opened 0 0 else if u = 6 then .opened 0 1
            else .closed .nil, 7⟩ 0
          ⟨[], [.integer 10, .integer 20], [5, 6]⟩ 1
        = some (h2, ⟨[], [.integer 10, .integer 20], keep⟩) ∧
      (∀ u ∈ keep, uvInd h2 u < 1) ∧
      (∀ u ∈ ([5, 6] : List Nat),
          1 ≤ uvInd ⟨fun u => if u = 5 then .opened 0 0 else if u = 6 then .opened 0 1
            else .closed .nil, 7⟩ u →
          u ∉ keep ∧ h2.cells u = .closed
            (List.getD [Value.integer 10, Value.integer 20]
              (uvInd ⟨fun u => if u = 5 then .opened 0 0 else if u = 6 then .opened 0 1
                else .closed .nil, 7⟩ u) .nil)) := by
  obtain ⟨h2, keep, h1, hno, hge, _⟩ :=
    C6_close_upvalues_post
      ⟨fun u => if u = 5 then .opened 0 0 else if u = 6 then .opened 0 1
        else .closed .nil, 7⟩ 0
      ⟨[], [.integer 10, .integer 20], [5, 6]⟩ 1
      (by
        intro u hu
        rcases List.mem_cons.mp hu with rfl | hu
        · exact ⟨0, rfl, by decide⟩
        rcases List.mem_cons.mp hu with rfl | hu
        · exact ⟨1, rfl, by decide⟩
        · cases hu)
      (by decide)
  exact ⟨h2, keep, h1, hno, hge⟩

/-- Index bounds transported to membership: prefix members have key below
the threshold. -/
theorem mem_take_key_lt {key : Nat → Nat} {l : List Nat} {pos t : Nat}
    (hpre : ∀ j, j < pos → key (l.getD j 0) < t) :
    ∀ u ∈ l.take pos, key u < t := by
  intro u hu
  obtain ⟨j, hj, hju⟩ := List.mem_iff_getElem.mp hu
  have hjpos : j < pos := by have := hj; rw [List.length_take] at this; omega
  have hjlen : j < l.length := by have := hj; rw [List.length_take] at this; omega
  rw [List.getElem_take] at hju
  have := hpre j hjpos
  rwa [List.getD_eq_getElem l 0 hjlen, hju] at this

/-- Index bounds transported to membership: suffix members have key above
the threshold. -/
theorem mem_drop_key_gt {key : Nat → Nat} {l : List Nat} {pos t : Nat}
    (hsuf : ∀ j, pos ≤ j → j < l.length → t < key (l.getD j 0)) :
    ∀ u ∈ l.drop pos, t < key u := by
  intro u hu
  obtain ⟨j, hj, hju⟩ := List.mem_iff_getElem.mp hu
  have hjlen : pos + j < l.length := by have := hj; rw [List.length_drop] at this; omega
  rw [List.getElem_drop] at hju
  have := hsuf (pos + j) (by omega) hjlen
  rwa [List.getD_eq_getElem l 0 hjlen, hju] at this

/-- Claim C7: the `open_upvalues` list is strictly increasing by open stack
index, and the invariant is preserved both by `open_upvalue` (which
binary-searches and, on a miss, inserts the freshly allocated `Open` cell
at the reported position) and by `close_upvalues` (which truncates the list
to a prefix). Freshness of allocation (`Gc::new`) is the hypothesis that
every listed cell handle is below the allocator's next handle. -/
theorem C7_open_upvalues_ordering
    (h : UVHeap) (r : LuaRegisters) (reg : Nat) (selfId : ThreadId)
    (s : ThreadState) (bottom : Nat)
    (hsortedR : List.Pairwise (fun a b => uvInd h a < uvInd h b) r.open_upvalues)
    (hfreshR : ∀ u ∈ r.open_upvalues, u < h.next)
    (hopenS : ∀ u ∈ s.open_upvalues,
        ∃ i, h.cells u = .opened selfId i ∧ i < s.stack.length)
    (hsortedS : List.Pairwise (fun a b => uvInd h a < uvInd h b) s.open_upvalues) :
    (List.Pairwise
        (fun a b =>
          uvInd (r.open_upvalue h reg).1 a < uvInd (r.open_upvalue h reg).1 b)
        (r.open_upvalue h reg).2.1.open_upvalues ∧
      ∀ u ∈ (r.open_upvalue h reg).2.1.open_upvalues,
        u < (r.open_upvalue h reg).1.next) ∧
    (∃ pos h2,
      ThreadState.close_upvalues h selfId s bottom
        = some (h2, { s with open_upvalues := s.open_upvalues.take pos }) ∧
      List.Pairwise (fun a b => uvInd h2 a < uvInd h2 b)
        (s.open_upvalues.take pos)) := by
  constructor
  · cases hb : binary_search_by
        (fun u => compare (uvInd h u) (r.base + reg)) r.open_upvalues with
    | inl i =>
      simp only [LuaRegisters.open_upvalue, hb]
      exact ⟨hsortedR, hfreshR⟩
    | inr i =>
      obtain ⟨hi, hpre, hsuf⟩ :=
        (binary_search_by_spec (uvInd h) (r.base + reg) r.open_upvalues hsortedR).2 i hb
      simp only [LuaRegisters.open_upvalue, hb, UVHeap.alloc]
      have hcongr : ∀ u ∈ r.open_upvalues,
          uvInd ⟨fun v => if v = h.next then .opened r.thread (r.base + reg)
            else h.cells v, h.next + 1⟩ u = uvInd h u := by
        intro u hu
        have hne : u ≠ h.next := Nat.ne_of_lt (hfreshR u hu)
        simp [uvInd, open_upvalue_ind, hne]
      have hnew : uvInd ⟨fun v => if v = h.next then .opened r.thread (r.base + reg)
          else h.cells v, h.next + 1⟩ h.next = r.base + reg := by
        simp [uvInd, open_upvalue_ind]
      have htlt : ∀ u ∈ r.open_upvalues.take i, uvInd h u < r.base + reg :=
        mem_take_key_lt hpre
      have hdgt : ∀ u ∈ r.open_upvalues.drop i, r.base + reg < uvInd h u :=
        mem_drop_key_gt hsuf
      have hmemt : ∀ u ∈ r.open_upvalues.take i, u ∈ r.open_upvalues :=
        fun u hu => (List.take_sublist i r.open_upvalues).mem hu
      have hmemd : ∀ u ∈ r.open_upvalues.drop i, u ∈ r.open_upvalues :=
        fun u hu => (List.drop_sublist i r.open_upvalues).mem hu
      constructor
      · rw [List.pairwise_append]
        refine ⟨?_, ?_, ?_⟩
        · refine List.Pairwise.imp_of_mem ?_
            (hsortedR.sublist (List.take_sublist i r.open_upvalues))
          intro a b ha hb2 hlt
          rwa [hcongr a (hmemt a ha), hcongr b (hmemt b hb2)]
        · rw [List.pairwise_cons]
          constructor
          · intro b hb2
            rw [hnew, hcongr b (hmemd b hb2)]
            exact hdgt b hb2
          · refine List.Pairwise.imp_of_mem ?_
              (hsortedR.sublist (List.drop_sublist i r.open_upvalues))
            intro a b ha hb2 hlt
            rwa [hcongr a (hmemd a ha), hcongr b (hmemd b hb2)]
        · intro a ha b hb2
          rcases List.mem_cons.mp hb2 with rfl | hb2
          · rw [hnew, hcongr a (hmemt a ha)]
            exact htlt a ha
          · rw [hcongr a (hmemt a ha), hcongr b (hmemd b hb2)]
            exact lt_trans (htlt a ha) (hdgt b hb2)
      · intro u hu
        rcases List.mem_append.mp hu with hu | hu
        · exact lt_trans (hfreshR u (hmemt u hu)) (Nat.lt_succ_self _)
        · rcases List.mem_cons.mp hu with rfl | hu
          · exact Nat.lt_succ_self _
          · exact lt_trans (hfreshR u (hmemd u hu)) (Nat.lt_succ_self _)
  · obtain ⟨pos, h2, hrun, _, htake, _, _, _⟩ :=
      close_upvalues_spec h selfId s bottom hopenS hsortedS
    refine ⟨pos, h2, hrun, ?_⟩
    refine List.Pairwise.imp_of_mem ?_
      (hsortedS.sublist (List.take_sublist pos s.open_upvalues))
    intro a b ha hb hlt
    have hca : uvInd h2 a = uvInd h a := by
      unfold uvInd open_upvalue_ind
      rw [(htake a ha).2]
    have hcb : uvInd h2 b = uvInd h b := by
      unfold uvInd open_upvalue_ind
      rw [(htake b hb).2]
    rw [hca, hcb]
    exact hlt

/-- Witness for C7: inserting a register-2 upvalue between existing open
cells at indices 1 and 3, then closing at bottom 2. -/
theorem C7_open_upvalues_ordering_witness :
    (List.Pairwise
        (fun a b =>
          uvInd (LuaRegisters.open_upvalue
            ⟨fun u => if u = 3 then .opened 0 1 else if u = 4 then .opened 0 3
              else .closed .nil, 5⟩
            ⟨0, [], [], 0, 0, [3, 4], 0⟩ 2).1 a
            < uvInd (LuaRegisters.open_upvalue
            ⟨fun u => if u = 3 then .opened 0 1 else if u = 4 then .opened 0 3
              else .closed .nil, 5⟩
            ⟨0, [], [], 0, 0, [3, 4], 0⟩ 2).1 b)
        (LuaRegisters.open_upvalue
          ⟨fun u => if u = 3 then .opened 0 1 else if u = 4 then .opened 0 3
            else .closed .nil, 5⟩
          ⟨0, [], [], 0, 0, [3, 4], 0⟩ 2).2.1.open_upvalues) ∧
    (∃ pos h2,
      ThreadState.close_upvalues
          ⟨fun u => if u = 3 then .opened 0 1 else if u = 4 then .opened 0 3
            else .closed .nil, 5⟩ 0
          ⟨[], [.nil, .nil, .nil, .nil], [3, 4]⟩ 2
        = some (h2, ⟨[], [.nil, .nil, .nil, .nil], List.take pos [3, 4]⟩) ∧
      List.Pairwise (fun a b => uvInd h2 a < uvInd h2 b) (List.take pos [3, 4])) := by
  have h := C7_open_upvalues_ordering
    ⟨fun u => if u = 3 then .opened 0 1 else if u = 4 then .opened 0 3
      else .closed .nil, 5⟩
    ⟨0, [], [], 0, 0, [3, 4], 0⟩ 2 0
    ⟨[], [.nil, .nil, .nil, .nil], [3, 4]⟩ 2
    (by decide) (by decide)
    (by
      intro u hu
      rcases List.mem_cons.mp hu with rfl | hu
      · exact ⟨1, rfl, by decide⟩
      rcases List.mem_cons.mp hu with rfl | hu
      · exact ⟨3, rfl, by decide⟩
      · cases hu)
    (by decide)
  exact ⟨h.1.1, h.2⟩

/-- Claim C2: when the executor pops an `Error(err)` frame from a `Normal`
thread inside `step`, it pops the frame beneath and dispatches on it
(`unwindError` is that dispatch, applied to the state with the `Error`
frame already popped): a Lua frame with bottom `b` has the upvalues at
indices `≥ b` closed, the stack truncated to `b`, and `Error(err)`
re-pushed; a Sequence frame with `pending_error = None` is re-pushed as the
same Sequence frame with `pending_error = Some(err)`; any other frame is
discarded and `Error(err)` alone is re-pushed. -/
theorem C2_error_unwinding (h : UVHeap) (selfId : ThreadId) (err : ErrorV)
    (s : ThreadState) (rest : List Frame)
    (bottom base : Nat) (iv : Bool) (pc ss : Nat) (er : Option LuaReturn)
    (seqb seqn : Nat) (f : Frame) :
    (s.frames = .lua bottom base iv pc ss er :: rest →
      (∀ u ∈ s.open_upvalues,
          ∃ i, h.cells u = .opened selfId i ∧ i < s.stack.length) →
      List.Pairwise (fun a b => uvInd h a < uvInd h b) s.open_upvalues →
      ∃ h2 keep,
        unwindError h selfId s err
          = some (h2, ⟨.error err :: rest, s.stack.take bottom, keep⟩) ∧
        (∀ u ∈ keep, uvInd h2 u < bottom) ∧
        (∀ u ∈ s.open_upvalues, bottom ≤ uvInd h u →
            u ∉ keep ∧ h2.cells u = .closed (s.stack.getD (uvInd h u) .nil))) ∧
    (s.frames = .sequence seqb seqn none :: rest →
      unwindError h selfId s err
        = some (h, { s with frames := .sequence seqb seqn (some err) :: rest })) ∧
    (s.frames = f :: rest → f.isLua = false → f.isSequence = false →
      unwindError h selfId s err
        = some (h, { s with frames := .error err :: rest })) := by
  obtain ⟨fr, stk, ou⟩ := s
  refine ⟨fun hf hopen hsorted => ?_, fun hf => ?_, fun hf hfl hfs => ?_⟩
  · simp only at hf
    subst hf
    obtain ⟨pos, h2, hrun, _, htake, hmemlt, hmemge, _⟩ :=
      close_upvalues_spec h selfId ⟨rest, stk, ou⟩ bottom hopen hsorted
    refine ⟨h2, ou.take pos, ?_, ?_, hmemge⟩
    · simp only [unwindError, hrun, Option.map_some']
    · intro u hu
      obtain ⟨hlt, hcells⟩ := htake u hu
      have he : uvInd h2 u = uvInd h u := by
        unfold uvInd open_upvalue_ind
        rw [hcells]
      omega
  · simp only at hf
    subst hf
    simp [unwindError]
  · simp only at hf
    subst hf
    cases f <;> simp_all [Frame.isLua, Frame.isSequence, unwindError]

/-- Witness for C2: the three unwind shapes at concrete states — a Lua
frame over one open upvalue, a pending-error-free Sequence frame, and a
WaitThread frame. -/
theorem C2_error_unwinding_witness :
    (∃ h2 keep,
      unwindError ⟨fun _ => .opened 0 0, 1⟩ 0
          ⟨[.lua 1 2 false 0 1 none], [.integer 9, .integer 8], [0]⟩ (.runtime 3)
        = some (h2, ⟨[.error (.runtime 3)], [.integer 9], keep⟩) ∧
      (∀ u ∈ keep, uvInd h2 u < 1) ∧
      (∀ u ∈ ([0] : List Nat), 1 ≤ uvInd ⟨fun _ => .opened 0 0, 1⟩ u →
          u ∉ keep ∧ h2.cells u = .closed
            (List.getD [Value.integer 9, Value.integer 8]
              (uvInd ⟨fun _ => .opened 0 0, 1⟩ u) .nil))) ∧
    unwindError ⟨fun _ => .closed .nil, 0⟩ 0
        ⟨[.sequence 0 4 none], [], []⟩ (.runtime 3)
      = some (⟨fun _ => .closed .nil, 0⟩, ⟨[.sequence 0 4 (some (.runtime 3))], [], []⟩) ∧
    unwindError ⟨fun _ => .closed .nil, 0⟩ 0
        ⟨[.waitThread], [], []⟩ (.runtime 3)
      = some (⟨fun _ => .closed .nil, 0⟩, ⟨[.error (.runtime 3)], [], []⟩) := by
  refine ⟨?_, ?_, ?_⟩
  · exact (C2_error_unwinding ⟨fun _ => .opened 0 0, 1⟩ 0 (.runtime 3)
      ⟨[.lua 1 2 false 0 1 none], [.integer 9, .integer 8], [0]⟩ [] 1 2 false 0 1 none
      0 0 .waitThread).1 rfl
      (by
        intro u hu
        rcases List.mem_cons.mp hu with rfl | hu
        · exact ⟨0, rfl, by decide⟩
        · cases hu)
      (by decide)
  · exact (C2_error_unwinding ⟨fun _ => .closed .nil, 0⟩ 0 (.runtime 3)
      ⟨[.sequence 0 4 none], [], []⟩ [] 0 0 false 0 0 none 0 4 .waitThread).2.1 rfl
  · exact (C2_error_unwinding ⟨fun _ => .closed .nil, 0⟩ 0 (.runtime 3)
      ⟨[.waitThread], [], []⟩ [] 0 0 false 0 0 none 0 0 .waitThread).2.2 rfl rfl rfl

/-- Claim C3: when a callback or sequence returns
`Yield { to_thread, then }`, the continuation sequence (when present) is
pushed first and the `Yielded` frame on top of it; with a target thread
whose resume succeeds, the values above the frame's bottom are drained into
the resume, the current thread is popped from the executor's thread stack
and the target pushed; without a target, a `Result { bottom }` frame is
pushed on top so the embedder may observe the yielded values. -/
theorem C3_yield_protocol (protos : Nat → Proto) (rest : List ThreadId)
    (threads : ThreadId → ThreadState) (curId t : ThreadId)
    (top : ThreadState) (bottom : Nat) (thn : Option Nat) (tSt : ThreadState) :
    (callback_ret protos (curId :: rest) threads curId top bottom (.yield none thn)
      = some (curId :: rest, threads,
        { top with frames := .result bottom :: .yielded ::
            (match thn with
             | some q => Frame.sequence bottom q none :: top.frames
             | none => top.frames) })) ∧
    (t ≠ curId →
      Thread.resume protos false (threads t) (top.stack.drop bottom)
        = some (.ok tSt) →
      callback_ret protos (curId :: rest) threads curId top bottom (.yield (some t) thn)
        = some (t :: rest, updThread threads t tSt,
          { top with
              stack := top.stack.take bottom
              frames := .yielded ::
                (match thn with
                 | some q => Frame.sequence bottom q none :: top.frames
                 | none => top.frames) })) := by
  constructor
  · cases thn <;> rfl
  · intro hne hres
    have hd : (decide (t = curId)) = false := decide_eq_false hne
    cases thn with
    | none => simp only [callback_ret, hd, hres, List.tail_cons]
    | some q => simp only [callback_ret, hd, hres, List.tail_cons]

/-- Witness for C3: yielding to thread 1 (suspended at a `Start` frame)
from thread 0 with continuation sequence 5, and yielding to the embedder
with the same continuation. -/
theorem C3_yield_protocol_witness :
    (callback_ret (fun _ => ⟨0, 0⟩) [0]
        (fun _ => ⟨[.start (.callback 7)], [], []⟩) 0 ⟨[], [], []⟩ 0
        (.yield none (some 5))
      = some ([0], (fun _ => ⟨[.start (.callback 7)], [], []⟩),
        ⟨[.result 0, .yielded, .sequence 0 5 none], [], []⟩)) ∧
    (callback_ret (fun _ => ⟨0, 0⟩) [0]
        (fun _ => ⟨[.start (.callback 7)], [], []⟩) 0 ⟨[], [], []⟩ 0
        (.yield (some 1) (some 5))
      = some ([1],
        updThread (fun _ => ⟨[.start (.callback 7)], [], []⟩) 1
          ⟨[.callback 0 7], [], []⟩,
        ⟨[.yielded, .sequence 0 5 none], [], []⟩)) := by
  have h := C3_yield_protocol (fun _ => ⟨0, 0⟩) []
    (fun _ => ⟨[.start (.callback 7)], [], []⟩) 0 1 ⟨[], [], []⟩ 0 (some 5)
    ⟨[.callback 0 7], [], []⟩
  exact ⟨h.1, h.2 (by decide) (by rfl)⟩

/-- Unfolding equation for the step loop. -/
theorem stepLoop_eq (O : Oracles) (s : ExecState) (fuel : Fuel) (trans : Nat) :
    stepLoop O s fuel trans =
      match stepIter O s fuel with
      | none => none
      | some (.finished s1) => some (true, s1, fuel, trans)
      | some (.looped s1 used) =>
        if (fuel.consume_fuel ((used : Int) + (FUEL_PER_STEP : Nat))).should_continue then
          stepLoop O s1 (fuel.consume_fuel ((used : Int) + (FUEL_PER_STEP : Nat)))
            (trans + 1)
        else
          some (false, s1,
            fuel.consume_fuel ((used : Int) + (FUEL_PER_STEP : Nat)), trans + 1) := by
  rw [stepLoop]

/-- A run of the step loop that ends paused (`false`) has consumed at least
`FUEL_PER_STEP = 4` fuel and completed at least one more iteration than it
started with. -/
theorem stepLoop_false (O : Oracles) :
    ∀ (m : Nat) (fuel : Fuel) (s : ExecState) (trans : Nat)
      (s2 : ExecState) (fuel2 : Fuel) (n : Nat),
      fuel.remaining.toNat ≤ m →
      stepLoop O s fuel trans = some (false, s2, fuel2, n) →
      fuel2.remaining + 4 ≤ fuel.remaining ∧ trans < n := by
  intro m
  induction m with
  | zero =>
    intro fuel s trans s2 fuel2 n hm h
    rw [stepLoop_eq] at h
    cases hi : stepIter O s fuel with
    | none => rw [hi] at h; simp at h
    | some out =>
      cases out with
      | finished s1 => rw [hi] at h; simp at h
      | looped s1 used =>
        rw [hi] at h
        dsimp only at h
        have hsc : ¬ (fuel.consume_fuel
            ((used : Int) + (FUEL_PER_STEP : Nat))).should_continue := by
          simp only [Fuel.should_continue, Fuel.consume_fuel, FUEL_PER_STEP,
            decide_eq_true_eq]
          omega
        rw [if_neg hsc] at h
        simp only [Option.some.injEq, Prod.mk.injEq] at h
        obtain ⟨-, -, hf, hn⟩ := h
        subst hf hn
        simp only [Fuel.consume_fuel, FUEL_PER_STEP]
        omega
  | succ m ih =>
    intro fuel s trans s2 fuel2 n hm h
    rw [stepLoop_eq] at h
    cases hi : stepIter O s fuel with
    | none => rw [hi] at h; simp at h
    | some out =>
      cases out with
      | finished s1 => rw [hi] at h; simp at h
      | looped s1 used =>
        rw [hi] at h
        dsimp only at h
        by_cases hsc : (fuel.consume_fuel
            ((used : Int) + (FUEL_PER_STEP : Nat))).should_continue
        · rw [if_pos hsc] at h
          simp only [Fuel.should_continue, Fuel.consume_fuel, FUEL_PER_STEP,
            decide_eq_true_eq] at hsc
          obtain ⟨h1, h2⟩ := ih (fuel.consume_fuel ((used : Int) + (FUEL_PER_STEP : Nat)))
            s1 (trans + 1) s2 fuel2 n
            (by simp only [Fuel.consume_fuel, FUEL_PER_STEP]; omega) h
          simp only [Fuel.consume_fuel, FUEL_PER_STEP] at h1
          exact ⟨by omega, by omega⟩
        · rw [if_neg hsc] at h
          simp only [Option.some.injEq, Prod.mk.injEq] at h
          obtain ⟨-, -, hf, hn⟩ := h
          subst hf hn
          simp only [Fuel.consume_fuel, FUEL_PER_STEP]
          omega

/-- Claim C8: every call to `Executor::step` that returns `false` (paused)
has consumed at least one unit of fuel — the fuel counter is strictly lower
than before the call — and has completed at least one loop iteration, each
of which transports one finished thread's result or dispatches one frame
of the current thread. -/
theorem C8_step_paused_progress (O : Oracles) (s : ExecState) (fuel : Fuel)
    (s2 : ExecState) (fuel2 : Fuel) (n : Nat)
    (h : Executor.step O s fuel = some (false, s2, fuel2, n)) :
    fuel2.remaining < fuel.remaining ∧ 1 ≤ n := by
  obtain ⟨h1, h2⟩ := stepLoop_false O fuel.remaining.toNat fuel s 0 s2 fuel2 n le_rfl h
  exact ⟨by omega, by omega⟩

/-- Witness for C8: a single thread holding one Lua frame, an interpreter
oracle that runs zero instructions, and a fuel budget of 1; the step
pauses, having consumed the `FUEL_PER_STEP` tariff. -/
theorem C8_step_paused_progress_witness :
    ∃ s2 : ExecState,
      Executor.step
        ⟨fun _ => ⟨0, 0⟩,
         fun _ _ stk th uv => ⟨stk, th, uv, 0, .ok .ret⟩,
         fun _ _ stk th uv => ⟨stk, th, uv, 0, .ok .pending⟩,
         fun _ _ _ stk th uv => ⟨stk, th, uv, 0, .ok .pending⟩,
         fun _ st th uv => ⟨st, th, uv, 0, .ok 0⟩⟩
        ⟨[0], fun _ => ⟨[.lua 0 1 false 0 1 none], [.nil, .nil], []⟩,
          ⟨fun _ => .closed .nil, 0⟩⟩ ⟨1⟩
        = some (false, s2, ⟨-3⟩, 1) ∧
      (⟨-3⟩ : Fuel).remaining < (⟨1⟩ : Fuel).remaining ∧ 1 ≤ 1 := by
  have h :
      Executor.step
        ⟨fun _ => ⟨0, 0⟩,
         fun _ _ stk th uv => ⟨stk, th, uv, 0, .ok .ret⟩,
         fun _ _ stk th uv => ⟨stk, th, uv, 0, .ok .pending⟩,
         fun _ _ _ stk th uv => ⟨stk, th, uv, 0, .ok .pending⟩,
         fun _ st th uv => ⟨st, th, uv, 0, .ok 0⟩⟩
        ⟨[0], fun _ => ⟨[.lua 0 1 false 0 1 none], [.nil, .nil], []⟩,
          ⟨fun _ => .closed .nil, 0⟩⟩ ⟨1⟩
        = some (false,
            ⟨[0],
              updThread (fun _ => ⟨[.lua 0 1 false 0 1 none], [.nil, .nil], []⟩) 0
                ⟨[.lua 0 1 false 0 1 none], [.nil, .nil], []⟩,
              ⟨fun _ => .closed .nil, 0⟩⟩, ⟨-3⟩, 1) := by
    rw [Executor.step, stepLoop_eq]
    rfl
  exact ⟨_, h, (C8_step_paused_progress _ _ _ _ _ _ h).1, le_rfl⟩

/-- Claim C9: for every `Value v`, `fetch(stash(v))` is observably equal to
`v`: `Nil`, `Boolean`, `Integer` and `Number` are reproduced bitwise and
the five handle variants yield the identical handle. -/
theorem C9_stash_fetch_roundtrip (v : Value) : v.stash.fetch = v := by
  cases v with
  | nil => rfl
  | boolean b => rfl
  | integer i => rfl
  | number bits => rfl
  | string h => rfl
  | table h => rfl
  | function f => cases f <;> rfl
  | thread t => rfl
  | userdata h => rfl

/-- Claim C4: `mode()` is a pure function of the frame stack; the empty
stack is `Stopped`; a top `Lua`/`Callback`/`Sequence` frame is `Normal`; a
top `Start`/`Yielded` frame is `Suspended`; `WaitThread` is `Waiting`;
`Result` is `Result`; `Error` is `Result` when it is the only frame and
`Normal` otherwise; and a mutably borrowed thread observes as `Running`. -/
theorem C4_mode_table (s t : ThreadState) (f : Frame) (rest : List Frame) :
    (s.frames = t.frames → s.mode = t.mode)
    ∧ (s.frames = [] → s.mode = .stopped)
    ∧ (s.frames = f :: rest →
        s.mode = match f with
          | .lua .. | .callback .. | .sequence .. => ThreadMode.normal
          | .start _ | .yielded => ThreadMode.suspended
          | .waitThread => ThreadMode.waiting
          | .result _ => ThreadMode.result
          | .error _ => if rest = [] then ThreadMode.result else ThreadMode.normal)
    ∧ Thread.mode true s = .running
    ∧ Thread.mode false s = s.mode := by
  refine ⟨fun h => ?_, fun h => ?_, fun h => ?_, rfl, rfl⟩
  · simp only [ThreadState.mode, h]
  · simp only [ThreadState.mode, h, List.head?_nil]
  · cases f <;> cases rest <;> simp [ThreadState.mode, h]

/-- Witness for C4 at a concrete state: a single `WaitThread` frame is
`Waiting`, and the borrowed observation is `Running`. -/
theorem C4_mode_table_witness :
    ThreadState.mode ⟨[Frame.waitThread], [], []⟩ = ThreadMode.waiting ∧
    Thread.mode true ⟨[Frame.waitThread], [], []⟩ = ThreadMode.running := by
  have h := C4_mode_table ⟨[Frame.waitThread], [], []⟩ ⟨[Frame.waitThread], [], []⟩
    Frame.waitThread []
  exact ⟨h.2.2.1 rfl, h.2.2.2.1⟩

/-- Claim C1, evaluated at a failing input: on a `Closed(Nil)` cell,
`set_upvalue(cell, Integer 1)` followed by `get_upvalue(cell)` yields
`Nil`, not `Integer 1` — the `Closed` arm of `set_upvalue`
(thread.rs:1212-1214) stores the cell's old value back instead of the new
one. -/
theorem C1_set_closed_upvalue_drops_value :
    ((LuaRegisters.set_upvalue ⟨fun _ => .closed .nil, 1⟩ (fun _ => ⟨[], [], []⟩)
        ⟨0, [], [], 0, 0, [0], 0⟩ 0 (.integer 1)).bind
      fun r => LuaRegisters.get_upvalue r.1 r.2.1 r.2.2 0) = some Value.nil
    ∧ some Value.nil ≠ some (Value.integer 1) := by
  exact ⟨rfl, by decide⟩

/-- `check_mode` on any mode other than the expected one (including the
borrowed `Running` observation) reports `BadThreadMode` with the found mode
and the required mode. -/
theorem check_mode_ne (b : Bool) (s : ThreadState) (expected : ThreadMode)
    (h : Thread.mode b s ≠ expected) :
    Thread.check_mode b s expected = .error ⟨Thread.mode b s, some expected⟩ := by
  cases b with
  | true => rfl
  | false =>
    simp only [Thread.mode, Bool.false_eq_true, if_false] at h ⊢
    simp only [Thread.check_mode, Bool.false_eq_true, if_false, if_neg h]

/-- Claim C5: each mode-guarded thread operation — `start` and
`start_suspended` require `Stopped`, `resume` and `resume_err` require
`Suspended`, `take_result` requires `Result` — called in any other mode
(including the borrowed `Running` observation) returns
`BadThreadMode { found, expected: Some(required) }`; the early return
happens before any mutation, so the state is untouched. -/
theorem C5_mode_guards (protos : Nat → Proto) (b : Bool) (s : ThreadState)
    (f : FunctionV) (args : List Value) (e : ErrorV) :
    (Thread.mode b s ≠ .stopped →
      Thread.start protos b s f args = some (.error ⟨Thread.mode b s, some .stopped⟩)) ∧
    (Thread.mode b s ≠ .stopped →
      Thread.start_suspended b s f = some (.error ⟨Thread.mode b s, some .stopped⟩)) ∧
    (Thread.mode b s ≠ .suspended →
      Thread.resume protos b s args = some (.error ⟨Thread.mode b s, some .suspended⟩)) ∧
    (Thread.mode b s ≠ .suspended →
      Thread.resume_err b s e = some (.error ⟨Thread.mode b s, some .suspended⟩)) ∧
    (Thread.mode b s ≠ .result →
      Thread.take_result b s = some (.error ⟨Thread.mode b s, some .result⟩)) := by
  refine ⟨fun h => ?_, fun h => ?_, fun h => ?_, fun h => ?_, fun h => ?_⟩
  · simp only [Thread.start, check_mode_ne b s _ h]
  · simp only [Thread.start_suspended, check_mode_ne b s _ h]
  · simp only [Thread.resume, check_mode_ne b s _ h]
  · simp only [Thread.resume_err, check_mode_ne b s _ h]
  · simp only [Thread.take_result, check_mode_ne b s _ h]

/-- Witness for C5: a thread whose single frame is `WaitThread` (mode
`Waiting`) is rejected by all five guarded operations. -/
theorem C5_mode_guards_witness :
    Thread.start (fun _ => ⟨0, 0⟩) false ⟨[.waitThread], [], []⟩ (.callback 0) []
        = some (.error ⟨.waiting, some .stopped⟩) ∧
    Thread.start_suspended false ⟨[.waitThread], [], []⟩ (.callback 0)
        = some (.error ⟨.waiting, some .stopped⟩) ∧
    Thread.resume (fun _ => ⟨0, 0⟩) false ⟨[.waitThread], [], []⟩ []
        = some (.error ⟨.waiting, some .suspended⟩) ∧
    Thread.resume_err false ⟨[.waitThread], [], []⟩ (.runtime 0)
        = some (.error ⟨.waiting, some .suspended⟩) ∧
    Thread.take_result false ⟨[.waitThread], [], []⟩
        = some (.error ⟨.waiting, some .result⟩) := by
  have h := C5_mode_guards (fun _ => ⟨0, 0⟩) false ⟨[.waitThread], [], []⟩
    (.callback 0) [] (.runtime 0)
  exact ⟨h.1 (by decide), h.2.1 (by decide), h.2.2.1 (by decide),
    h.2.2.2.1 (by decide), h.2.2.2.2 (by decide)⟩

/-- Claim C10: with more than one thread on the executor's stack,
`Executor::mode` reports `Normal`, and `take_result`, `resume` and
`resume_err` all fail with `BadThreadMode { found: Normal }` before
touching any thread. -/
theorem C10_executor_multi_thread (ts : List ThreadId)
    (threads : ThreadId → ThreadState) (protos : Nat → Proto)
    (args : List Value) (e : ErrorV) (h : ts.length > 1) :
    Executor.mode ts threads = some .normal ∧
    Executor.take_result ts threads = some (.error ⟨.normal, some .result⟩) ∧
    Executor.resume protos ts threads args = some (.error ⟨.normal, some .suspended⟩) ∧
    Executor.resume_err ts threads e = some (.error ⟨.normal, some .suspended⟩) := by
  refine ⟨?_, ?_, ?_, ?_⟩ <;>
    simp [Executor.mode, Executor.take_result, Executor.resume, Executor.resume_err, h]

/-- Witness for C10 with a concrete two-thread stack. -/
theorem C10_executor_multi_thread_witness :
    Executor.mode [0, 1] (fun _ => ⟨[], [], []⟩) = some .normal ∧
    Executor.take_result [0, 1] (fun _ => ⟨[], [], []⟩)
        = some (.error ⟨.normal, some .result⟩) ∧
    Executor.resume (fun _ => ⟨0, 0⟩) [0, 1] (fun _ => ⟨[], [], []⟩) []
        = some (.error ⟨.normal, some .suspended⟩) ∧
    Executor.resume_err [0, 1] (fun _ => ⟨[], [], []⟩) (.runtime 0)
        = some (.error ⟨.normal, some .suspended⟩) :=
  C10_executor_multi_thread [0, 1] (fun _ => ⟨[], [], []⟩) (fun _ => ⟨0, 0⟩) []
    (.runtime 0) (by decide)

end Piccolo
